import Mathlib

/-!
Verification of the transactional-outbox synchronization subsystem of the
NeuroLM repository (dual-datastore: PostgreSQL primary, Neo4j secondary).

The repository ships the storage layer as SQL DDL:
  * the `graph_outbox` table (migration file creating the outbox), and
  * the `messages` table with its per-conversation idempotency index.
Those two are embedded below directly from the DDL.  The worker, emitter and
mapper logic (`outbox_worker.py` and friends) is referenced by the project
README and spec but its source is not part of the provided tree, so those
operations are modelled from the spec, each marked `Modelled from the spec:`
in its doc comment.
-/

namespace NeuroOutbox

/-- Status values of a `graph_outbox` row, from the DDL comment:
`-- pending, processing, done, deadletter`. -/
inductive Status where
  | pending
  | processing
  | done
  | deadletter
deriving DecidableEq, Repr

/-- A row of the `graph_outbox` table (columns from the DDL in the migration:
id TEXT PRIMARY KEY, event_type TEXT NOT NULL, entity_id TEXT NOT NULL,
payload JSONB NOT NULL, status TEXT NOT NULL DEFAULT 'pending',
attempts INTEGER NOT NULL DEFAULT 0, last_error TEXT,
created_at TIMESTAMPTZ DEFAULT now(), updated_at TIMESTAMPTZ DEFAULT now()).
Timestamps are modelled as naturals; the JSONB payload is modelled as an
association list of fields.  The `owner` field models the worker attribution
the spec requires of `claim_batch` (not a DDL column; it is worker state the
spec attributes to a claim). -/
structure OutboxRow where
  id : String
  event_type : String
  entity_id : String
  payload : List (String × String)
  status : Status
  attempts : Nat
  last_error : Option String
  created_at : Nat
  updated_at : Nat
  owner : Option String
deriving DecidableEq, Repr

/-- The outbox table: a list of rows. -/
abbrev Outbox := List OutboxRow

/-- Ordering used by `claim_batch`: oldest `created_at` first
(ORDER BY created_at, matching the index `idx_graph_outbox_status_created`). -/
def createdLe (a b : OutboxRow) : Prop := a.created_at ≤ b.created_at

instance : DecidableRel createdLe := fun a b => Nat.decLe a.created_at b.created_at

instance : IsTotal OutboxRow createdLe := ⟨fun a b => Nat.le_total a.created_at b.created_at⟩

instance : IsTrans OutboxRow createdLe := ⟨fun _ _ _ => Nat.le_trans⟩

/-- Rows currently eligible for a claim: status = pending. -/
def pendingRows (s : Outbox) : List OutboxRow :=
  s.filter (fun r => r.status = Status.pending)

/-- Modelled from the spec: `claim_batch(n, worker_id)` of the Outbox Queue
(implemented in the missing `outbox_worker.py`) atomically selects up to `n`
rows with status = pending, oldest `created_at` first, transitions them to
processing and attributes ownership to `worker_id`.  Returns the claimed
batch (in claim order) together with the updated table; the whole call is a
single atomic statement, so the table-to-table function is the unit of
interleaving. -/
def claimSelect (n : Nat) (s : Outbox) : List OutboxRow :=
  (List.insertionSort createdLe (pendingRows s)).take n

/-- Ids of the rows a `claim_batch n _ _ s` call claims. -/
def claimedIds (n : Nat) (s : Outbox) : List String :=
  (claimSelect n s).map (fun r => r.id)

def claim_batch (n : Nat) (worker : String) (now : Nat) (s : Outbox) :
    List OutboxRow × Outbox :=
  (claimSelect n s,
    s.map (fun r =>
      if r.id ∈ claimedIds n s then
        { r with status := Status.processing, owner := some worker,
                 updated_at := now }
      else r))

/-- Modelled from the spec: the row a fresh `enqueue(event)` writes inside the
business transaction.  DDL defaults of graph_outbox: status 'pending',
attempts 0, last_error NULL, created_at = updated_at = now(). -/
def mkOutboxRow (id etype eid : String) (payload : List (String × String))
    (now : Nat) : OutboxRow :=
  ⟨id, etype, eid, payload, Status.pending, 0, none, now, now, none⟩

/-- Modelled from the spec: `enqueue(event)`, used by the emitter inside the
business transaction, appends one outbox row. -/
def enqueue (id etype eid : String) (payload : List (String × String))
    (now : Nat) (s : Outbox) : Outbox :=
  s ++ [mkOutboxRow id etype eid payload now]

/-- Row-level effect of `mark_done`: only a processing row moves to done. -/
def markDoneRow (now : Nat) (r : OutboxRow) : OutboxRow :=
  if r.status = Status.processing then
    { r with status := Status.done, updated_at := now }
  else r

/-- Modelled from the spec: `mark_done(id)`. -/
def mark_done (id : String) (now : Nat) (s : Outbox) : Outbox :=
  s.map (fun r => if r.id = id then markDoneRow now r else r)

/-- Row-level effect of `mark_retry`: a processing row returns to pending with
attempts incremented by one, last_error set, and the claim released. -/
def markRetryRow (err : String) (now : Nat) (r : OutboxRow) : OutboxRow :=
  if r.status = Status.processing then
    { r with status := Status.pending, attempts := r.attempts + 1,
             last_error := some err, updated_at := now, owner := none }
  else r

/-- Modelled from the spec: `mark_retry(id, error)` (to pending, attempts+1,
last_error set). -/
def mark_retry (id err : String) (now : Nat) (s : Outbox) : Outbox :=
  s.map (fun r => if r.id = id then markRetryRow err now r else r)

/-- Row-level effect of `mark_deadletter`: a processing row moves to the
terminal deadletter status, recording the failed cycle and its error. -/
def markDeadRow (err : String) (now : Nat) (r : OutboxRow) : OutboxRow :=
  if r.status = Status.processing then
    { r with status := Status.deadletter, attempts := r.attempts + 1,
             last_error := some err, updated_at := now }
  else r

/-- Modelled from the spec: `mark_deadletter(id, error)`. -/
def mark_deadletter (id err : String) (now : Nat) (s : Outbox) : Outbox :=
  s.map (fun r => if r.id = id then markDeadRow err now r else r)

/-- Row-level effect of `reclaim_stale`: a row stuck in processing beyond
the liveness timeout returns to pending, as if it had failed. -/
def reclaimRow (timeout now : Nat) (r : OutboxRow) : OutboxRow :=
  if r.status = Status.processing ∧ r.updated_at + timeout < now then
    { r with status := Status.pending, attempts := r.attempts + 1,
             updated_at := now, owner := none }
  else r

/-- Modelled from the spec: `reclaim_stale(timeout)` recovers rows whose
worker disappeared mid-apply. -/
def reclaim_stale (timeout now : Nat) (s : Outbox) : Outbox :=
  s.map (reclaimRow timeout now)

/-- One operation of the Outbox Queue storage contract. -/
inductive Op where
  | enq (id etype eid : String) (payload : List (String × String)) (now : Nat)
  | claim (n : Nat) (worker : String) (now : Nat)
  | done (id : String) (now : Nat)
  | retry (id err : String) (now : Nat)
  | dead (id err : String) (now : Nat)
  | reclaim (timeout now : Nat)

/-- Interpretation of a storage-contract operation on the table. -/
def applyOp : Op → Outbox → Outbox
  | Op.enq i et en p t, s => enqueue i et en p t s
  | Op.claim n w t, s => (claim_batch n w t s).2
  | Op.done i t, s => mark_done i t s
  | Op.retry i e t, s => mark_retry i e t s
  | Op.dead i e t, s => mark_deadletter i e t s
  | Op.reclaim tmo t, s => reclaim_stale tmo t s

/-- Interpretation of a sequence of operations, oldest first. -/
def applyOps (ops : List Op) (s : Outbox) : Outbox :=
  ops.foldl (fun t op => applyOp op t) s

/-- The status of the row with a given id (None when absent). -/
def statusOf (i : String) (s : Outbox) : Option Status :=
  (s.find? (fun r => r.id = i)).map (fun r => r.status)

/-- Edges of the per-row state machine from the spec:
pending to processing (claim); processing to done, back to pending (retry or
staleness reclaim) or deadletter; done and deadletter terminal; staying put
is always allowed. -/
def statusStepOK : Status → Status → Bool
  | Status.pending, Status.pending => true
  | Status.pending, Status.processing => true
  | Status.processing, Status.processing => true
  | Status.processing, Status.done => true
  | Status.processing, Status.pending => true
  | Status.processing, Status.deadletter => true
  | Status.done, Status.done => true
  | Status.deadletter, Status.deadletter => true
  | _, _ => false

/-- Primary-key discipline of graph_outbox: ids are pairwise distinct. -/
abbrev NodupIds (s : Outbox) : Prop := (s.map (fun r => r.id)).Nodup

/-- An enqueue may only introduce a fresh id (the PRIMARY KEY would reject a
duplicate); every other operation is unrestricted. -/
def opFresh : Op → Outbox → Bool
  | Op.enq i _ _ _ _, s => s.all (fun r => ¬ r.id = i)
  | _, _ => true

/-- Freshness of every enqueue along a run of operations. -/
def opsFresh : List Op → Outbox → Bool
  | [], _ => true
  | op :: ops, s => opFresh op s && opsFresh ops (applyOp op s)

/-- Modelled from the spec: the business side of the primary store, as the
entity rows the mutations touch, alongside the outbox living in the same
database. -/
structure PrimaryDB where
  entities : List (String × String)
  outbox : Outbox
deriving DecidableEq, Repr

/-- Create-or-replace of a business entity row. -/
def upsertEntity (eid val : String) (es : List (String × String)) :
    List (String × String) :=
  if es.any (fun kv => kv.1 = eid) then
    es.map (fun kv => if kv.1 = eid then (eid, val) else kv)
  else es ++ [(eid, val)]

/-- Modelled from the spec: the Event Emitter runs inside the same atomic
local transaction as the business mutation; on commit both the entity write
and the single `enqueue` are applied, on abort neither is.  This is the
atomicity of one local transaction, not a two-phase commit. -/
def runMutationTxn (commits : Bool) (eventId etype eid val : String)
    (payload : List (String × String)) (now : Nat) (db : PrimaryDB) :
    PrimaryDB :=
  if commits then
    { entities := upsertEntity eid val db.entities,
      outbox := enqueue eventId etype eid payload now db.outbox }
  else db

/-- Node properties of the secondary (graph) store. -/
def GraphProps : Type := String → Option String

/-- Node map of the secondary store, natural key to properties. -/
def NodeMap : Type := String → Option GraphProps

/-- Relationship set of the secondary store: source key, target key,
relationship type. -/
def RelSet : Type := String → String → String → Bool

/-- The secondary (Neo4j) store as the worker sees it: nodes addressed by
natural key, plus a relationship set. -/
@[ext] structure GraphStore where
  nodes : NodeMap
  rels : RelSet

/-- Properties of a fresh node. -/
def emptyProps : GraphProps := fun _ => none

/-- Write one property. -/
def setProp (k v : String) (p : GraphProps) : GraphProps :=
  fun x => if x = k then some v else p x

/-- Write a list of properties left to right. -/
def setProps (ps : List (String × String)) (p : GraphProps) : GraphProps :=
  ps.foldl (fun acc kv => setProp kv.1 kv.2 acc) p

/-- A secondary-store mutation operation emitted by the Payload Mapper:
node upsert, relationship upsert or property merge. -/
inductive Mutation where
  | nodeUpsert (key : String) (props : List (String × String))
  | relUpsert (src dst rel : String)
  | propMerge (key : String) (props : List (String × String))
deriving DecidableEq, Repr

/-- Modelled from the spec: mutations are applied as idempotent upserts,
create-or-merge by natural key (the glossary's idempotent upsert).  A node
upsert and a property merge both ensure the node exists and merge the listed
properties over what is already there; a relationship upsert adds the edge
when absent. -/
def applyMutation (g : GraphStore) : Mutation → GraphStore
  | Mutation.nodeUpsert k ps =>
      { g with nodes := fun x =>
          if x = k then some (setProps ps ((g.nodes k).getD emptyProps))
          else g.nodes x }
  | Mutation.propMerge k ps =>
      { g with nodes := fun x =>
          if x = k then some (setProps ps ((g.nodes k).getD emptyProps))
          else g.nodes x }
  | Mutation.relUpsert a b t =>
      { g with rels := fun x y z =>
          if x = a ∧ y = b ∧ z = t then true else g.rels x y z }

/-- Application of an ordered mutation list, left to right. -/
def applyMutations (ms : List Mutation) (g : GraphStore) : GraphStore :=
  ms.foldl applyMutation g

/-- Concatenated property writes a mutation list performs on one node key,
in order. -/
def nodeWrites : List Mutation → String → List (String × String)
  | [], _ => []
  | Mutation.nodeUpsert k2 ps :: rest, k =>
      (if k2 = k then ps else []) ++ nodeWrites rest k
  | Mutation.propMerge k2 ps :: rest, k =>
      (if k2 = k then ps else []) ++ nodeWrites rest k
  | Mutation.relUpsert _ _ _ :: rest, k => nodeWrites rest k

/-- Whether a mutation list touches a node key at all. -/
def nodeTouched : List Mutation → String → Bool
  | [], _ => false
  | Mutation.nodeUpsert k2 _ :: rest, k => k2 = k || nodeTouched rest k
  | Mutation.propMerge k2 _ :: rest, k => k2 = k || nodeTouched rest k
  | Mutation.relUpsert _ _ _ :: rest, k => nodeTouched rest k

/-- Whether a mutation list inserts a given relationship. -/
def relTouched : List Mutation → String → String → String → Bool
  | [], _, _, _ => false
  | Mutation.relUpsert a b t :: rest, x, y, z =>
      (decide (a = x) && decide (b = y) && decide (t = z)) || relTouched rest x y z
  | _ :: rest, x, y, z => relTouched rest x y z

/-- The JSON payload snapshot, as the association list of its fields. -/
abbrev Payload := List (String × String)

/-- Field access into a payload: the first binding of the field name. -/
def getField (p : Payload) (k : String) : Option String :=
  (p.find? (fun kv => kv.1 = k)).map (fun kv => kv.2)

/-- Modelled from the spec: mapping for event_type conversation_upsert.
Reads only its schema fields (id, topic, sub_topic) through `getField`;
any other payload field is never consulted. -/
def mapConversationUpsert (p : Payload) : List Mutation :=
  [Mutation.nodeUpsert ("Conversation:" ++ (getField p "id").getD "")
     [("topic", (getField p "topic").getD ""),
      ("sub_topic", (getField p "sub_topic").getD "")]]

/-- Modelled from the spec: mapping for event_type message_upsert.  Upserts
the Message node and the HAS_MESSAGE relationship from its conversation;
reads only id, content, message_type and conversation_id. -/
def mapMessageUpsert (p : Payload) : List Mutation :=
  [Mutation.nodeUpsert ("Message:" ++ (getField p "id").getD "")
     [("content", (getField p "content").getD ""),
      ("message_type", (getField p "message_type").getD "")],
   Mutation.relUpsert ("Conversation:" ++ (getField p "conversation_id").getD "")
     ("Message:" ++ (getField p "id").getD "") "HAS_MESSAGE"]

/-- Modelled from the spec: mapping for event_type feedback_upsert.  Merges
the quality score onto the Message node; reads only message_id and
quality_score. -/
def mapFeedbackUpsert (p : Payload) : List Mutation :=
  [Mutation.propMerge ("Message:" ++ (getField p "message_id").getD "")
     [("quality_score", (getField p "quality_score").getD "")]]

/-- Modelled from the spec: the tagged-variant lookup table from event_type
to its pure mapping function (the polymorphic dispatch of the worker). -/
def mapperTable : List (String × (Payload → List Mutation)) :=
  [("conversation_upsert", mapConversationUpsert),
   ("message_upsert", mapMessageUpsert),
   ("feedback_upsert", mapFeedbackUpsert)]

/-- Schema fields each event_type's mapping may read; everything else in a
payload is unknown to the mapper and must be ignored. -/
def knownFields : String → List String
  | "conversation_upsert" => ["id", "topic", "sub_topic"]
  | "message_upsert" => ["id", "content", "message_type", "conversation_id"]
  | "feedback_upsert" => ["message_id", "quality_score"]
  | _ => []

/-- Modelled from the spec: the Payload Mapper, a pure function from
(event_type, payload) to the ordered mutation list, by table dispatch.
Fails (None) only on an event_type absent from the table. -/
def mapPayload (et : String) (p : Payload) : Option (List Mutation) :=
  (mapperTable.find? (fun kv => kv.1 = et)).map (fun kv => kv.2 p)

/-- Result of one worker poll cycle: the application log (rows in the order
their mutations were applied), the secondary store, the outbox table. -/
structure DrainResult where
  log : List OutboxRow
  store : GraphStore
  table : Outbox

/-- Modelled from the spec: one poll cycle of the Sync Worker on the happy
path.  It claims a batch, then for each claimed row, strictly sequentially
and in claim order, maps the payload, applies the mutation list to the
secondary store, and marks the row done. -/
def drainCycle (n : Nat) (w : String) (now : Nat) (g : GraphStore)
    (s : Outbox) : DrainResult :=
  { log := (claim_batch n w now s).1,
    store := ((claim_batch n w now s).1).foldl
      (fun acc r => applyMutations ((mapPayload r.event_type r.payload).getD []) acc) g,
    table := ((claim_batch n w now s).1).foldl
      (fun t r => mark_done r.id now t) (claim_batch n w now s).2 }

/-- Modelled from the spec: k successive poll cycles of the Sync Worker
over a fixed workload (no enqueues in between), each claiming a batch,
applying it strictly sequentially and marking it done.  Returns the
concatenated application log (rows in the exact order their mutations hit
the secondary store, across all cycles) with the final store and table. -/
def drainCycles (n : Nat) (w : String) (now : Nat) :
    Nat → GraphStore → Outbox → List OutboxRow × GraphStore × Outbox
  | 0, g, s => ([], g, s)
  | k + 1, g, s =>
      ((drainCycle n w now g s).log ++
         (drainCycles n w now k (drainCycle n w now g s).store
            (drainCycle n w now g s).table).1,
       (drainCycles n w now k (drainCycle n w now g s).store
          (drainCycle n w now g s).table).2.1,
       (drainCycles n w now k (drainCycle n w now g s).store
          (drainCycle n w now g s).table).2.2)

/-- Modelled from the spec: the worker's failure handling for one claimed
row r.  mark_retry while the new attempt count stays under the cap
max_attempts, else mark_deadletter. -/
def workerFailStep (maxA : Nat) (err : String) (now : Nat) (t : Outbox)
    (r : OutboxRow) : Outbox :=
  if r.attempts + 1 < maxA then mark_retry r.id err now t
  else mark_deadletter r.id err now t

/-- Modelled from the spec: one poll cycle in which applying every claimed
row fails (secondary store unreachable or a poisoned payload). -/
def failCycle (maxA : Nat) (w err : String) (now n : Nat) (s : Outbox) :
    Outbox :=
  ((claim_batch n w now s).1).foldl (workerFailStep maxA err now)
    (claim_batch n w now s).2

/-- Iterated failing cycles. -/
def failCycles (maxA : Nat) (w err : String) (now n k : Nat) (s : Outbox) :
    Outbox :=
  (fun t => failCycle maxA w err now n t)^[k] s

/-- A single fresh outbox row after k failed cycles, still pending. -/
def pendingRowK (k : Nat) (e : Option String) : OutboxRow :=
  ⟨"x", "message_upsert", "e1", [("content", "hi")], Status.pending, k, e,
   4, 7, none⟩

/-- The same row once it has been dead-lettered by worker w. -/
def deadRowK (k : Nat) (w err : String) : OutboxRow :=
  ⟨"x", "message_upsert", "e1", [("content", "hi")], Status.deadletter, k,
   some err, 4, 7, some w⟩

/-- Last error after k failed cycles, starting from e. -/
def errAfter (k : Nat) (err : String) (e : Option String) : Option String :=
  if k = 0 then e else some err

/-- A row of the messages table (columns from the DDL: id TEXT PRIMARY KEY,
conversation_id TEXT NOT NULL, message_type TEXT NOT NULL CHECK in
(user, assistant, system), content TEXT NOT NULL, idempotency_key TEXT,
created_at / updated_at TIMESTAMPTZ DEFAULT now(), is_active BOOLEAN
DEFAULT TRUE). -/
structure MessageRow where
  id : String
  conversation_id : String
  message_type : String
  content : String
  idempotency_key : Option String
  created_at : Nat
  updated_at : Nat
  is_active : Bool
deriving DecidableEq, Repr

/-- The predicate the partial unique index idx_messages_unique_idem checks
on insert: a second row with the same conversation_id and the same non-NULL
idempotency_key.  NULL keys never participate (WHERE idempotency_key IS NOT
NULL). -/
def idemConflict (conv : String) (key : Option String)
    (t : List MessageRow) : Bool :=
  match key with
  | none => false
  | some k => t.any (fun r => r.conversation_id = conv ∧ r.idempotency_key = some k)

/-- Embedded from the messages DDL: an INSERT checked against the PRIMARY
KEY, the message_type CHECK constraint, and the partial unique index; on
success the row is appended with the timestamp defaults. -/
def insertMessage (i conv mtype content : String) (key : Option String)
    (now : Nat) (t : List MessageRow) : Except String (List MessageRow) :=
  if t.any (fun r => r.id = i) then
    Except.error "duplicate key value violates unique constraint messages_pkey"
  else if ¬ (mtype = "user" ∨ mtype = "assistant" ∨ mtype = "system") then
    Except.error "new row violates check constraint on message_type"
  else if idemConflict conv key t then
    Except.error "duplicate key value violates unique constraint idx_messages_unique_idem"
  else Except.ok (t ++ [⟨i, conv, mtype, content, key, now, now, true⟩])

/-- No two rows of the table carry the same conversation_id and the same
non-NULL idempotency_key (the invariant the partial unique index enforces). -/
def UniqueIdem (t : List MessageRow) : Prop :=
  t.Pairwise (fun r1 r2 => r1.conversation_id = r2.conversation_id →
    r1.idempotency_key = none ∨ r1.idempotency_key ≠ r2.idempotency_key)

/-- A row of the graph_outbox table exactly as the DDL types it: nullable
columns are Option, NOT NULL columns are plain. -/
structure GraphOutboxSQLRow where
  id : String
  event_type : String
  entity_id : String
  payload : String
  status : String
  attempts : Int
  last_error : Option String
  created_at : Option Nat
  updated_at : Option Nat
deriving DecidableEq, Repr

/-- Embedded from the graph_outbox DDL: an INSERT supplying only id,
event_type, entity_id and payload.  NULL in a NOT NULL column is rejected;
a duplicate id violates the PRIMARY KEY; otherwise the omitted columns take
their DDL defaults: status 'pending', attempts 0, last_error NULL,
created_at and updated_at now(). -/
def insertGraphOutbox (id etype eid payload : Option String) (now : Nat)
    (t : List GraphOutboxSQLRow) : Except String (List GraphOutboxSQLRow) :=
  match id, etype, eid, payload with
  | some i, some et, some en, some pl =>
      if t.any (fun r => r.id = i) then
        Except.error "duplicate key value violates unique constraint graph_outbox_pkey"
      else
        Except.ok (t ++ [⟨i, et, en, pl, "pending", 0, none, some now, some now⟩])
  | _, _, _, _ => Except.error "null value in column violates not-null constraint"

/-- Concrete three-row outbox used by the witnesses. -/
def outboxW : Outbox :=
  [⟨"a", "message_upsert", "e1", [("content", "hi")], Status.pending, 0, none, 5, 5, none⟩,
   ⟨"b", "message_upsert", "e1", [("content", "yo")], Status.pending, 0, none, 3, 3, none⟩,
   ⟨"c", "conversation_upsert", "e2", [], Status.done, 0, none, 1, 9, none⟩]

/-- Concrete row stuck in processing since time 3, used by the witnesses. -/
def staleRowW : OutboxRow :=
  ⟨"p1", "message_upsert", "e9", [], Status.processing, 1, some "timeout", 2, 3, some "w0"⟩

lemma claim_batch_fst (n : Nat) (worker : String) (now : Nat) (s : Outbox) :
    (claim_batch n worker now s).1 = claimSelect n s := rfl

lemma claim_batch_snd (n : Nat) (worker : String) (now : Nat) (s : Outbox) :
    (claim_batch n worker now s).2 =
      s.map (fun r =>
        if r.id ∈ claimedIds n s then
          { r with status := Status.processing, owner := some worker,
                   updated_at := now }
        else r) := rfl

/-- Every row of the claimed batch is a pending row of the table. -/
lemma batch_mem_pending {n : Nat} {worker : String} {now : Nat} {s : Outbox}
    {r : OutboxRow} (h : r ∈ (claim_batch n worker now s).1) :
    r ∈ s ∧ r.status = Status.pending := by
  rw [claim_batch_fst] at h
  unfold claimSelect at h
  have h2 : r ∈ List.insertionSort createdLe (pendingRows s) :=
    List.mem_of_mem_take h
  have h3 : r ∈ pendingRows s :=
    (List.perm_insertionSort createdLe (pendingRows s)).mem_iff.mp h2
  unfold pendingRows at h3
  have h4 := List.of_mem_filter h3
  exact ⟨List.mem_of_mem_filter h3, by simpa using h4⟩

/-- The claimed batch has size at most `n`. -/
lemma batch_length_le (n : Nat) (worker : String) (now : Nat) (s : Outbox) :
    (claim_batch n worker now s).1.length ≤ n := by
  rw [claim_batch_fst]
  unfold claimSelect
  exact List.length_take_le n _

/-- Membership in the claimed id list comes from a claimed row. -/
lemma mem_claimedIds {n : Nat} {s : Outbox} {i : String}
    (h : i ∈ claimedIds n s) :
    ∃ c, c ∈ claimSelect n s ∧ c.id = i := by
  unfold claimedIds at h
  rcases List.mem_map.mp h with ⟨c, hc, hci⟩
  exact ⟨c, hc, hci⟩

lemma claimSelect_mem_pending {n : Nat} {s : Outbox} {r : OutboxRow}
    (h : r ∈ claimSelect n s) : r ∈ s ∧ r.status = Status.pending := by
  have h2 : r ∈ List.insertionSort createdLe (pendingRows s) :=
    List.mem_of_mem_take h
  have h3 : r ∈ pendingRows s :=
    (List.perm_insertionSort createdLe (pendingRows s)).mem_iff.mp h2
  unfold pendingRows at h3
  have h4 := List.of_mem_filter h3
  exact ⟨List.mem_of_mem_filter h3, by simpa using h4⟩

/-- With unique ids (the PRIMARY KEY of graph_outbox), a row of the table
whose id was claimed is itself the pending claimed row. -/
lemma claimed_row_pending {n : Nat} {s : Outbox} {r : OutboxRow}
    (hnd : (s.map (fun r => r.id)).Nodup) (hr : r ∈ s)
    (h : r.id ∈ claimedIds n s) : r.status = Status.pending := by
  rcases mem_claimedIds h with ⟨c, hc, hci⟩
  rcases claimSelect_mem_pending hc with ⟨hcs, hcp⟩
  have : c = r :=
    List.inj_on_of_nodup_map hnd hcs hr hci
  rw [← this]; exact hcp

/-- Oldest-first: a claimed row is no younger than any pending row the claim
left unclaimed. -/
lemma claim_oldest_first {n : Nat} {s : Outbox} {c p : OutboxRow}
    (hc : c ∈ claimSelect n s) (hp : p ∈ s) (hpp : p.status = Status.pending)
    (hnp : p.id ∉ claimedIds n s) : c.created_at ≤ p.created_at := by
  have hsorted : List.Sorted createdLe
      (List.insertionSort createdLe (pendingRows s)) :=
    List.sorted_insertionSort createdLe (pendingRows s)
  have hsplit := List.take_append_drop n
      (List.insertionSort createdLe (pendingRows s))
  have hps : p ∈ List.insertionSort createdLe (pendingRows s) := by
    refine (List.perm_insertionSort createdLe (pendingRows s)).mem_iff.mpr ?_
    unfold pendingRows
    exact List.mem_filter.mpr ⟨hp, by simpa using hpp⟩
  have hpt : p ∉ claimSelect n s := by
    intro hmem
    exact hnp (List.mem_map.mpr ⟨p, hmem, rfl⟩)
  have hpd : p ∈ (List.insertionSort createdLe (pendingRows s)).drop n := by
    have := hsplit ▸ hps
    rcases List.mem_append.mp this with h1 | h2
    · exact absurd h1 hpt
    · exact h2
  have hpair : List.Pairwise createdLe
      ((List.insertionSort createdLe (pendingRows s)).take n ++
       (List.insertionSort createdLe (pendingRows s)).drop n) := by
    rw [hsplit]; exact hsorted
  exact (List.pairwise_append.mp hpair).2.2 c hc p hpd

/-- Rows whose id was not claimed survive `claim_batch` unchanged. -/
lemma claim_unclaimed_unchanged {n : Nat} {worker : String} {now : Nat}
    {s : Outbox} {r : OutboxRow} (hr : r ∈ s)
    (h : r.id ∉ claimedIds n s) : r ∈ (claim_batch n worker now s).2 := by
  rw [claim_batch_snd]
  have : (if r.id ∈ claimedIds n s then
      { r with status := Status.processing, owner := some worker,
               updated_at := now } else r) = r := by
    rw [if_neg h]
  exact this ▸ List.mem_map_of_mem _ hr

/-- Rows whose id was claimed appear in the new table as processing, owned by
the claiming worker. -/
lemma claim_claimed_processing {n : Nat} {worker : String} {now : Nat}
    {s : Outbox} {r : OutboxRow} (hr : r ∈ s)
    (h : r.id ∈ claimedIds n s) :
    ({ r with status := Status.processing, owner := some worker,
              updated_at := now } : OutboxRow) ∈
      (claim_batch n worker now s).2 := by
  rw [claim_batch_snd]
  have : (if r.id ∈ claimedIds n s then
      { r with status := Status.processing, owner := some worker,
               updated_at := now } else r) =
      { r with status := Status.processing, owner := some worker,
               updated_at := now } := by
    rw [if_pos h]
  exact this ▸ List.mem_map_of_mem _ hr

/-- Mutual exclusion across successive atomic claims: an id claimed by the
second call was not claimed by the first. -/
lemma claim_disjoint {n1 n2 : Nat} {w1 : String} {t1 : Nat} {s : Outbox}
    {i : String} (h : i ∈ claimedIds n2 (claim_batch n1 w1 t1 s).2) :
    i ∉ claimedIds n1 s := by
  rcases mem_claimedIds h with ⟨c, hc, hci⟩
  rcases claimSelect_mem_pending hc with ⟨hcs, hcp⟩
  rw [claim_batch_snd] at hcs
  rcases List.mem_map.mp hcs with ⟨r, hrs, hrc⟩
  intro hmem
  by_cases hrid : r.id ∈ claimedIds n1 s
  · rw [if_pos hrid] at hrc
    rw [← hrc] at hcp
    exact absurd hcp (by simp)
  · rw [if_neg hrid] at hrc
    rw [← hrc] at hci
    rw [hci] at hrid
    exact hrid hmem

/-- C1: claim_batch(n, worker_id) transitions only rows whose status is
pending to processing, taking the oldest created_at first and at most n
rows; a second atomic claim, by any other worker, claims a set of rows
disjoint from the first, so no two workers ever hold a claim on the same
row at once and only the claim holder can later move the row to done. -/
theorem c1_claim_batch_exclusive
    (n1 n2 : Nat) (w1 w2 : String) (t1 t2 : Nat) (s : Outbox)
    (hnd : NodupIds s) :
    (∀ r ∈ s, r.id ∈ claimedIds n1 s → r.status = Status.pending) ∧
    (claim_batch n1 w1 t1 s).1.length ≤ n1 ∧
    (∀ c ∈ (claim_batch n1 w1 t1 s).1, ∀ p ∈ s,
        p.status = Status.pending → p.id ∉ claimedIds n1 s →
        c.created_at ≤ p.created_at) ∧
    (∀ r ∈ s, r.id ∈ claimedIds n1 s →
        ({ r with status := Status.processing, owner := some w1,
                  updated_at := t1 } : OutboxRow) ∈ (claim_batch n1 w1 t1 s).2) ∧
    (∀ r ∈ s, r.id ∉ claimedIds n1 s → r ∈ (claim_batch n1 w1 t1 s).2) ∧
    (∀ i ∈ ((claim_batch n2 w2 t2 (claim_batch n1 w1 t1 s).2).1).map
        (fun r => r.id), i ∉ claimedIds n1 s) := by
  refine ⟨?_, batch_length_le n1 w1 t1 s, ?_, ?_, ?_, ?_⟩
  · intro r hr hid
    exact claimed_row_pending hnd hr hid
  · intro c hc p hp hpp hnp
    rw [claim_batch_fst] at hc
    exact claim_oldest_first hc hp hpp hnp
  · intro r hr hid
    exact claim_claimed_processing hr hid
  · intro r hr hid
    exact claim_unclaimed_unchanged hr hid
  · intro i hi
    exact claim_disjoint hi

/-- Witness for C1 at a concrete three-row outbox and batch size one. -/
theorem c1_claim_batch_exclusive_witness :
    NodupIds outboxW ∧
    ((∀ r ∈ outboxW, r.id ∈ claimedIds 1 outboxW → r.status = Status.pending) ∧
     (claim_batch 1 "w1" 10 outboxW).1.length ≤ 1 ∧
     (∀ c ∈ (claim_batch 1 "w1" 10 outboxW).1, ∀ p ∈ outboxW,
         p.status = Status.pending → p.id ∉ claimedIds 1 outboxW →
         c.created_at ≤ p.created_at) ∧
     (∀ r ∈ outboxW, r.id ∈ claimedIds 1 outboxW →
         ({ r with status := Status.processing, owner := some "w1",
                   updated_at := 10 } : OutboxRow) ∈ (claim_batch 1 "w1" 10 outboxW).2) ∧
     (∀ r ∈ outboxW, r.id ∉ claimedIds 1 outboxW → r ∈ (claim_batch 1 "w1" 10 outboxW).2) ∧
     (∀ i ∈ ((claim_batch 1 "w2" 11 (claim_batch 1 "w1" 10 outboxW).2).1).map
         (fun r => r.id), i ∉ claimedIds 1 outboxW)) :=
  ⟨by decide, c1_claim_batch_exclusive 1 1 "w1" "w2" 10 11 outboxW (by decide)⟩

/-- C2: the outbox row created by the Event Emitter exists after the
transaction if and only if the business transaction commits; a committed
mutation creates exactly one outbox row, atomically with the entity write;
on abort the outbox is unchanged. -/
theorem c2_emitter_atomicity
    (commits : Bool) (eventId etype eid val : String)
    (payload : List (String × String)) (now : Nat) (db : PrimaryDB)
    (hfresh : ∀ r ∈ db.outbox, r.id ≠ eventId) :
    (commits = true →
       (runMutationTxn commits eventId etype eid val payload now db).outbox
         = db.outbox ++ [mkOutboxRow eventId etype eid payload now] ∧
       (runMutationTxn commits eventId etype eid val payload now db).entities
         = upsertEntity eid val db.entities ∧
       ((runMutationTxn commits eventId etype eid val payload now db).outbox.filter
           (fun r => r.id = eventId)).length = 1) ∧
    (commits = false →
       runMutationTxn commits eventId etype eid val payload now db = db) ∧
    ((∃ r ∈ (runMutationTxn commits eventId etype eid val payload now db).outbox,
        r.id = eventId) ↔ commits = true) := by
  cases commits with
  | false =>
      have hsame : runMutationTxn false eventId etype eid val payload now db = db := by
        simp [runMutationTxn]
      refine ⟨?_, ?_, ?_⟩
      · intro h; exact absurd h (by decide)
      · intro _; exact hsame
      · rw [hsame]
        constructor
        · rintro ⟨r, hr, hid⟩
          exact absurd hid (hfresh r hr)
        · intro h; exact absurd h (by decide)
  | true =>
      have houtbox :
          (runMutationTxn true eventId etype eid val payload now db).outbox
            = db.outbox ++ [mkOutboxRow eventId etype eid payload now] := by
        simp [runMutationTxn, enqueue]
      refine ⟨?_, ?_, ?_⟩
      · intro _
        refine ⟨houtbox, by simp [runMutationTxn], ?_⟩
        rw [houtbox, List.filter_append]
        have h1 : db.outbox.filter (fun r => r.id = eventId) = [] := by
          apply List.filter_eq_nil_iff.mpr
          intro r hr
          simpa using hfresh r hr
        have h2 : ([mkOutboxRow eventId etype eid payload now]).filter
            (fun r => r.id = eventId) = [mkOutboxRow eventId etype eid payload now] := by
          simp [mkOutboxRow]
        rw [h1, h2]
        simp
      · intro h; exact absurd h (by decide)
      · constructor
        · intro _; rfl
        · intro _
          exact ⟨mkOutboxRow eventId etype eid payload now,
            by rw [houtbox]; exact List.mem_append_right _ (List.mem_singleton.mpr rfl),
            rfl⟩

/-- Witness for C2: a committed and an aborted mutation against a one-row
database. -/
theorem c2_emitter_atomicity_witness :
    (∀ r ∈ (PrimaryDB.mk [("e1", "v0")] outboxW).outbox, r.id ≠ "d") ∧
    ((true = true →
       (runMutationTxn true "d" "message_upsert" "e1" "v1" [] 12
           (PrimaryDB.mk [("e1", "v0")] outboxW)).outbox
         = (PrimaryDB.mk [("e1", "v0")] outboxW).outbox
             ++ [mkOutboxRow "d" "message_upsert" "e1" [] 12] ∧
       (runMutationTxn true "d" "message_upsert" "e1" "v1" [] 12
           (PrimaryDB.mk [("e1", "v0")] outboxW)).entities
         = upsertEntity "e1" "v1" (PrimaryDB.mk [("e1", "v0")] outboxW).entities ∧
       ((runMutationTxn true "d" "message_upsert" "e1" "v1" [] 12
           (PrimaryDB.mk [("e1", "v0")] outboxW)).outbox.filter
           (fun r => r.id = "d")).length = 1) ∧
     (true = false →
       runMutationTxn true "d" "message_upsert" "e1" "v1" [] 12
           (PrimaryDB.mk [("e1", "v0")] outboxW)
         = PrimaryDB.mk [("e1", "v0")] outboxW) ∧
     ((∃ r ∈ (runMutationTxn true "d" "message_upsert" "e1" "v1" [] 12
           (PrimaryDB.mk [("e1", "v0")] outboxW)).outbox,
        r.id = "d") ↔ true = true)) :=
  ⟨by decide,
   c2_emitter_atomicity true "d" "message_upsert" "e1" "v1" [] 12
     (PrimaryDB.mk [("e1", "v0")] outboxW) (by decide)⟩

lemma statusStepOK_refl (st : Status) : statusStepOK st st = true := by
  cases st <;> rfl

lemma statusStepOK_done_eq {st2 : Status}
    (h : statusStepOK Status.done st2 = true) : st2 = Status.done := by
  cases st2 <;> first | rfl | exact absurd h (by decide)

lemma statusStepOK_deadletter_eq {st2 : Status}
    (h : statusStepOK Status.deadletter st2 = true) :
    st2 = Status.deadletter := by
  cases st2 <;> first | rfl | exact absurd h (by decide)

/-- find? by id commutes with mapping an id-preserving row function. -/
lemma find?_map_id_preserving {g : OutboxRow → OutboxRow}
    (hid : ∀ r, (g r).id = r.id) (s : Outbox) (i : String) :
    (s.map g).find? (fun r => r.id = i) =
      (s.find? (fun r => r.id = i)).map g := by
  rw [List.find?_map]
  have hpred : ((fun r : OutboxRow => decide (r.id = i)) ∘ g)
      = (fun r : OutboxRow => decide (r.id = i)) := by
    funext r
    simp [Function.comp, hid r]
  rw [hpred]

lemma statusOf_map_of_id_preserving {g : OutboxRow → OutboxRow}
    (hid : ∀ r, (g r).id = r.id) (s : Outbox) (i : String) :
    statusOf i (s.map g) =
      (s.find? (fun r => r.id = i)).map (fun r => (g r).status) := by
  unfold statusOf
  rw [find?_map_id_preserving hid]
  cases s.find? (fun r => r.id = i) <;> rfl

/-- Status transition of a single mapped row is allowed whenever the row
function only makes allowed transitions. -/
lemma statusOf_map_step {g : OutboxRow → OutboxRow}
    (hid : ∀ r, (g r).id = r.id)
    (hok : ∀ r, statusStepOK r.status (g r).status = true)
    {s : Outbox} {i : String} {st st2 : Status}
    (h1 : statusOf i s = some st) (h2 : statusOf i (s.map g) = some st2) :
    statusStepOK st st2 = true := by
  unfold statusOf at h1
  rcases Option.map_eq_some'.mp h1 with ⟨r, hfind, hst⟩
  rw [statusOf_map_of_id_preserving hid, hfind] at h2
  simp only [Option.map_some'] at h2
  injection h2 with h2i
  rw [← hst, ← h2i]
  exact hok r

lemma markDoneRow_step (now : Nat) (r : OutboxRow) :
    statusStepOK r.status (markDoneRow now r).status = true := by
  unfold markDoneRow
  by_cases h : r.status = Status.processing
  · rw [if_pos h, h]; rfl
  · rw [if_neg h]; exact statusStepOK_refl _

lemma markRetryRow_step (err : String) (now : Nat) (r : OutboxRow) :
    statusStepOK r.status (markRetryRow err now r).status = true := by
  unfold markRetryRow
  by_cases h : r.status = Status.processing
  · rw [if_pos h, h]; rfl
  · rw [if_neg h]; exact statusStepOK_refl _

lemma markDeadRow_step (err : String) (now : Nat) (r : OutboxRow) :
    statusStepOK r.status (markDeadRow err now r).status = true := by
  unfold markDeadRow
  by_cases h : r.status = Status.processing
  · rw [if_pos h, h]; rfl
  · rw [if_neg h]; exact statusStepOK_refl _

lemma reclaimRow_step (timeout now : Nat) (r : OutboxRow) :
    statusStepOK r.status (reclaimRow timeout now r).status = true := by
  unfold reclaimRow
  by_cases h : r.status = Status.processing ∧ r.updated_at + timeout < now
  · rw [if_pos h, h.1]; rfl
  · rw [if_neg h]; exact statusStepOK_refl _

/-- Single-operation status transitions are exactly the state-machine edges
(claims need the primary-key discipline: ids pairwise distinct). -/
lemma statusOf_applyOp_step (op : Op) (s : Outbox) (hnd : NodupIds s)
    (i : String) (st st2 : Status)
    (h1 : statusOf i s = some st) (h2 : statusOf i (applyOp op s) = some st2) :
    statusStepOK st st2 = true := by
  cases op with
  | enq id2 et en p t =>
      simp only [applyOp] at h2
      unfold statusOf at h1 h2
      unfold enqueue at h2
      rw [List.find?_append] at h2
      rcases Option.map_eq_some'.mp h1 with ⟨r, hfind, hst⟩
      rw [hfind] at h2
      simp only [Option.or_some, Option.map_some'] at h2
      injection h2 with h2i
      rw [← hst, ← h2i]
      exact statusStepOK_refl _
  | claim n w t =>
      simp only [applyOp] at h2
      rw [claim_batch_snd] at h2
      have hid : ∀ r : OutboxRow,
          ((fun r => if r.id ∈ claimedIds n s then
              { r with status := Status.processing, owner := some w,
                       updated_at := t } else r) r).id = r.id := by
        intro r
        by_cases h : r.id ∈ claimedIds n s <;> simp [h]
      unfold statusOf at h1
      rcases Option.map_eq_some'.mp h1 with ⟨r, hfind, hst⟩
      rw [statusOf_map_of_id_preserving hid, hfind] at h2
      simp only [Option.map_some'] at h2
      by_cases hmem : r.id ∈ claimedIds n s
      · have hrp : r.status = Status.pending :=
          claimed_row_pending hnd (List.mem_of_find?_eq_some hfind) hmem
        simp only [if_pos hmem] at h2
        injection h2 with h2i
        rw [← hst, hrp, ← h2i]
        rfl
      · simp only [if_neg hmem] at h2
        injection h2 with h2i
        rw [← hst, ← h2i]
        exact statusStepOK_refl _
  | done id2 t =>
      simp only [applyOp] at h2
      unfold mark_done at h2
      refine statusOf_map_step ?_ ?_ h1 h2
      · intro r
        by_cases h : r.id = id2
        · rw [if_pos h]
          unfold markDoneRow
          by_cases h3 : r.status = Status.processing
          · rw [if_pos h3]
          · rw [if_neg h3]
        · rw [if_neg h]
      · intro r
        by_cases h : r.id = id2
        · rw [if_pos h]; exact markDoneRow_step t r
        · rw [if_neg h]; exact statusStepOK_refl _
  | retry id2 e t =>
      simp only [applyOp] at h2
      unfold mark_retry at h2
      refine statusOf_map_step ?_ ?_ h1 h2
      · intro r
        by_cases h : r.id = id2
        · rw [if_pos h]
          unfold markRetryRow
          by_cases h3 : r.status = Status.processing
          · rw [if_pos h3]
          · rw [if_neg h3]
        · rw [if_neg h]
      · intro r
        by_cases h : r.id = id2
        · rw [if_pos h]; exact markRetryRow_step e t r
        · rw [if_neg h]; exact statusStepOK_refl _
  | dead id2 e t =>
      simp only [applyOp] at h2
      unfold mark_deadletter at h2
      refine statusOf_map_step ?_ ?_ h1 h2
      · intro r
        by_cases h : r.id = id2
        · rw [if_pos h]
          unfold markDeadRow
          by_cases h3 : r.status = Status.processing
          · rw [if_pos h3]
          · rw [if_neg h3]
        · rw [if_neg h]
      · intro r
        by_cases h : r.id = id2
        · rw [if_pos h]; exact markDeadRow_step e t r
        · rw [if_neg h]; exact statusStepOK_refl _
  | reclaim tmo t =>
      simp only [applyOp] at h2
      unfold reclaim_stale at h2
      refine statusOf_map_step ?_ ?_ h1 h2
      · intro r
        unfold reclaimRow
        by_cases h : r.status = Status.processing ∧ r.updated_at + tmo < t
        · rw [if_pos h]
        · rw [if_neg h]
      · intro r
        exact reclaimRow_step tmo t r

lemma markDoneRow_id (now : Nat) (r : OutboxRow) :
    (markDoneRow now r).id = r.id := by
  unfold markDoneRow
  by_cases h : r.status = Status.processing <;> simp [h]

lemma markRetryRow_id (err : String) (now : Nat) (r : OutboxRow) :
    (markRetryRow err now r).id = r.id := by
  unfold markRetryRow
  by_cases h : r.status = Status.processing <;> simp [h]

lemma markDeadRow_id (err : String) (now : Nat) (r : OutboxRow) :
    (markDeadRow err now r).id = r.id := by
  unfold markDeadRow
  by_cases h : r.status = Status.processing <;> simp [h]

lemma reclaimRow_id (timeout now : Nat) (r : OutboxRow) :
    (reclaimRow timeout now r).id = r.id := by
  unfold reclaimRow
  by_cases h : r.status = Status.processing ∧ r.updated_at + timeout < now <;>
    simp [h]

lemma isSome_statusOf_map {g : OutboxRow → OutboxRow}
    (hid : ∀ r, (g r).id = r.id) {s : Outbox} {i : String}
    (h : (statusOf i s).isSome) : (statusOf i (s.map g)).isSome := by
  rw [statusOf_map_of_id_preserving hid]
  unfold statusOf at h
  cases hf : s.find? (fun r => r.id = i) with
  | none => rw [hf] at h; simp at h
  | some r => rfl

/-- Presence of a row id survives every storage operation. -/
lemma statusOf_isSome_applyOp (op : Op) (s : Outbox) (i : String)
    (h : (statusOf i s).isSome) : (statusOf i (applyOp op s)).isSome := by
  cases op with
  | enq id2 et en p t =>
      simp only [applyOp]
      unfold enqueue statusOf
      rw [List.find?_append]
      unfold statusOf at h
      cases hf : s.find? (fun r => r.id = i) with
      | none => rw [hf] at h; simp at h
      | some r => rfl
  | claim n w t =>
      simp only [applyOp]
      rw [claim_batch_snd]
      refine isSome_statusOf_map ?_ h
      intro r
      by_cases hm : r.id ∈ claimedIds n s <;> simp [hm]
  | done id2 t =>
      simp only [applyOp]
      unfold mark_done
      refine isSome_statusOf_map ?_ h
      intro r
      by_cases hm : r.id = id2 <;> simp [hm, markDoneRow_id]
  | retry id2 e t =>
      simp only [applyOp]
      unfold mark_retry
      refine isSome_statusOf_map ?_ h
      intro r
      by_cases hm : r.id = id2 <;> simp [hm, markRetryRow_id]
  | dead id2 e t =>
      simp only [applyOp]
      unfold mark_deadletter
      refine isSome_statusOf_map ?_ h
      intro r
      by_cases hm : r.id = id2 <;> simp [hm, markDeadRow_id]
  | reclaim tmo t =>
      simp only [applyOp]
      unfold reclaim_stale
      refine isSome_statusOf_map ?_ h
      intro r
      exact reclaimRow_id tmo t r

lemma nodupIds_map {g : OutboxRow → OutboxRow}
    (hid : ∀ r, (g r).id = r.id) (s : Outbox) (hnd : NodupIds s) :
    NodupIds (s.map g) := by
  have heq : (s.map g).map (fun r => r.id) = s.map (fun r => r.id) := by
    rw [List.map_map]
    exact List.map_congr_left (fun r _ => hid r)
  show ((s.map g).map (fun r => r.id)).Nodup
  rw [heq]
  exact hnd

/-- Primary-key discipline survives every storage operation, given that an
enqueue only introduces a fresh id. -/
lemma nodupIds_applyOp (op : Op) (s : Outbox) (hnd : NodupIds s)
    (hf : opFresh op s = true) : NodupIds (applyOp op s) := by
  cases op with
  | enq id2 et en p t =>
      simp only [applyOp]
      unfold enqueue
      show ((s ++ [mkOutboxRow id2 et en p t]).map (fun r => r.id)).Nodup
      rw [List.map_append]
      rw [List.nodup_append]
      refine ⟨hnd, List.nodup_singleton _, ?_⟩
      simp only [List.map_cons, List.map_nil]
      rw [List.disjoint_singleton]
      intro hmem
      rcases List.mem_map.mp hmem with ⟨r, hr, hrid⟩
      have hall := List.all_eq_true.mp hf r hr
      simp only [mkOutboxRow] at hrid
      simp only [decide_eq_true_eq] at hall
      exact hall hrid
  | claim n w t =>
      simp only [applyOp]
      rw [claim_batch_snd]
      refine nodupIds_map ?_ s hnd
      intro r
      by_cases hm : r.id ∈ claimedIds n s <;> simp [hm]
  | done id2 t =>
      simp only [applyOp]
      unfold mark_done
      refine nodupIds_map ?_ s hnd
      intro r
      by_cases hm : r.id = id2 <;> simp [hm, markDoneRow_id]
  | retry id2 e t =>
      simp only [applyOp]
      unfold mark_retry
      refine nodupIds_map ?_ s hnd
      intro r
      by_cases hm : r.id = id2 <;> simp [hm, markRetryRow_id]
  | dead id2 e t =>
      simp only [applyOp]
      unfold mark_deadletter
      refine nodupIds_map ?_ s hnd
      intro r
      by_cases hm : r.id = id2 <;> simp [hm, markDeadRow_id]
  | reclaim tmo t =>
      simp only [applyOp]
      unfold reclaim_stale
      refine nodupIds_map ?_ s hnd
      intro r
      exact reclaimRow_id tmo t r

/-- Terminal statuses survive any well-formed run of storage operations. -/
lemma statusOf_terminal_applyOps (ops : List Op) (s : Outbox)
    (hnd : NodupIds s) (hfr : opsFresh ops s = true) (i : String) :
    (statusOf i s = some Status.done →
       statusOf i (applyOps ops s) = some Status.done) ∧
    (statusOf i s = some Status.deadletter →
       statusOf i (applyOps ops s) = some Status.deadletter) := by
  induction ops generalizing s with
  | nil => exact ⟨fun h => h, fun h => h⟩
  | cons op ops ih =>
      have hfr1 : opFresh op s = true ∧ opsFresh ops (applyOp op s) = true := by
        simpa [opsFresh, Bool.and_eq_true] using hfr
      have hnd2 := nodupIds_applyOp op s hnd hfr1.1
      have happ : applyOps (op :: ops) s = applyOps ops (applyOp op s) := rfl
      constructor
      · intro h
        have hsome : (statusOf i (applyOp op s)).isSome :=
          statusOf_isSome_applyOp op s i (by rw [h]; rfl)
        rcases Option.isSome_iff_exists.mp hsome with ⟨st2, hst2⟩
        have hstep := statusOf_applyOp_step op s hnd i Status.done st2 h hst2
        rw [statusStepOK_done_eq hstep] at hst2
        rw [happ]
        exact (ih (applyOp op s) hnd2 hfr1.2).1 hst2
      · intro h
        have hsome : (statusOf i (applyOp op s)).isSome :=
          statusOf_isSome_applyOp op s i (by rw [h]; rfl)
        rcases Option.isSome_iff_exists.mp hsome with ⟨st2, hst2⟩
        have hstep := statusOf_applyOp_step op s hnd i Status.deadletter st2 h hst2
        rw [statusStepOK_deadletter_eq hstep] at hst2
        rw [happ]
        exact (ih (applyOp op s) hnd2 hfr1.2).2 hst2

/-- C3: under every storage operation a row's status only follows the state
machine pending to processing to done, pending or deadletter; mark_retry
moves a processing row to pending with attempts incremented by one and
last_error set; done and deadletter are terminal under every well-formed
operation sequence. -/
theorem c3_status_state_machine :
    (∀ (op : Op) (s : Outbox), NodupIds s → ∀ (i : String) (st st2 : Status),
       statusOf i s = some st → statusOf i (applyOp op s) = some st2 →
       statusStepOK st st2 = true) ∧
    (∀ (id err : String) (now : Nat) (s : Outbox), ∀ r ∈ s,
       r.id = id → r.status = Status.processing →
       ({ r with status := Status.pending, attempts := r.attempts + 1,
                 last_error := some err, updated_at := now,
                 owner := none } : OutboxRow) ∈ mark_retry id err now s) ∧
    (∀ (ops : List Op) (s : Outbox), NodupIds s → opsFresh ops s = true →
       ∀ i : String,
       (statusOf i s = some Status.done →
          statusOf i (applyOps ops s) = some Status.done) ∧
       (statusOf i s = some Status.deadletter →
          statusOf i (applyOps ops s) = some Status.deadletter)) := by
  refine ⟨statusOf_applyOp_step, ?_, statusOf_terminal_applyOps⟩
  intro id err now s r hr hid hst
  unfold mark_retry
  have heval : (if r.id = id then markRetryRow err now r else r) =
      { r with status := Status.pending, attempts := r.attempts + 1,
               last_error := some err, updated_at := now, owner := none } := by
    rw [if_pos hid]
    unfold markRetryRow
    rw [if_pos hst]
  exact heval ▸ List.mem_map_of_mem _ hr

/-- Witness for C3: a claim step on the concrete outbox takes row b from
pending to processing, an allowed edge; terminality checked on a run. -/
theorem c3_status_state_machine_witness :
    NodupIds outboxW ∧
    statusOf "b" outboxW = some Status.pending ∧
    statusOf "b" (applyOp (Op.claim 1 "w1" 10) outboxW) = some Status.processing ∧
    statusStepOK Status.pending Status.processing = true ∧
    (opsFresh [Op.claim 2 "w1" 10, Op.done "b" 11] outboxW = true ∧
     statusOf "c" outboxW = some Status.done ∧
     statusOf "c" (applyOps [Op.claim 2 "w1" 10, Op.done "b" 11] outboxW)
       = some Status.done) :=
  ⟨by decide, by decide, by decide,
   c3_status_state_machine.1 (Op.claim 1 "w1" 10) outboxW (by decide) "b"
     Status.pending Status.processing (by decide) (by decide),
   by decide, by decide,
   (c3_status_state_machine.2.2 [Op.claim 2 "w1" 10, Op.done "b" 11] outboxW
     (by decide) (by decide) "c").1 (by decide)⟩

/-- C7: a row in processing beyond the liveness timeout is returned to
pending by reclaim_stale, as if it had failed (attempts incremented, claim
released), and is again eligible for a claim; rows not stale are untouched,
so a crashed claim is never permanently stuck in processing. -/
theorem c7_reclaim_stale_recovers
    (timeout now : Nat) (s : Outbox) (r : OutboxRow) (hr : r ∈ s) :
    (r.status = Status.processing → r.updated_at + timeout < now →
       ({ r with status := Status.pending, attempts := r.attempts + 1,
                 updated_at := now, owner := none } : OutboxRow)
         ∈ reclaim_stale timeout now s ∧
       ({ r with status := Status.pending, attempts := r.attempts + 1,
                 updated_at := now, owner := none } : OutboxRow)
         ∈ pendingRows (reclaim_stale timeout now s)) ∧
    (¬ (r.status = Status.processing ∧ r.updated_at + timeout < now) →
       r ∈ reclaim_stale timeout now s) := by
  constructor
  · intro h1 h2
    have heval : reclaimRow timeout now r =
        { r with status := Status.pending, attempts := r.attempts + 1,
                 updated_at := now, owner := none } := by
      unfold reclaimRow
      rw [if_pos ⟨h1, h2⟩]
    have hmem : ({ r with status := Status.pending,
                           attempts := r.attempts + 1,
                           updated_at := now, owner := none } : OutboxRow)
        ∈ reclaim_stale timeout now s := by
      unfold reclaim_stale
      exact heval ▸ List.mem_map_of_mem _ hr
    refine ⟨hmem, ?_⟩
    unfold pendingRows
    exact List.mem_filter.mpr ⟨hmem, by simp⟩
  · intro hneg
    have heval : reclaimRow timeout now r = r := by
      unfold reclaimRow
      rw [if_neg hneg]
    unfold reclaim_stale
    exact heval ▸ List.mem_map_of_mem _ hr

/-- Witness for C7: the stale processing row claimed at time 3 is reclaimed
at time 10 with a timeout of 1. -/
theorem c7_reclaim_stale_recovers_witness :
    staleRowW ∈ [staleRowW] ∧
    staleRowW.status = Status.processing ∧
    staleRowW.updated_at + 1 < 10 ∧
    (({ staleRowW with status := Status.pending,
                        attempts := staleRowW.attempts + 1, updated_at := 10,
                        owner := none } : OutboxRow)
        ∈ reclaim_stale 1 10 [staleRowW] ∧
     ({ staleRowW with status := Status.pending,
                       attempts := staleRowW.attempts + 1, updated_at := 10,
                       owner := none } : OutboxRow)
        ∈ pendingRows (reclaim_stale 1 10 [staleRowW])) :=
  ⟨by decide, by decide, by decide,
   (c7_reclaim_stale_recovers 1 10 [staleRowW] staleRowW (by decide)).1
     (by decide) (by decide)⟩

/-- One failing cycle on a single pending row below the cap: claim, fail,
mark_retry back to pending with attempts incremented. -/
lemma failCycle_retry_step (maxA : Nat) (w err : String) (k : Nat)
    (e : Option String) (h : k + 1 < maxA) :
    failCycle maxA w err 7 1 [pendingRowK k e]
      = [pendingRowK (k + 1) (some err)] := by
  unfold failCycle claim_batch claimedIds claimSelect pendingRows
  simp [List.insertionSort, List.orderedInsert, pendingRowK, workerFailStep, h,
        mark_retry, markRetryRow]

/-- One failing cycle on a single pending row at the cap: claim, fail,
mark_deadletter. -/
lemma failCycle_dead_step (maxA : Nat) (w err : String) (k : Nat)
    (e : Option String) (h : ¬ (k + 1 < maxA)) :
    failCycle maxA w err 7 1 [pendingRowK k e] = [deadRowK (k + 1) w err] := by
  unfold failCycle claim_batch claimedIds claimSelect pendingRows
  simp [List.insertionSort, List.orderedInsert, pendingRowK, workerFailStep, h,
        mark_deadletter, markDeadRow, deadRowK]

/-- Below the cap, k failing cycles leave the row pending with attempts
grown by k. -/
lemma failCycles_pending (maxA : Nat) (w err : String) (k a : Nat)
    (e : Option String) (h : a + k < maxA) :
    failCycles maxA w err 7 1 k [pendingRowK a e]
      = [pendingRowK (a + k) (errAfter k err e)] := by
  induction k generalizing a e with
  | zero => simp [failCycles, errAfter]
  | succ k ih =>
      have h1 : a + 1 < maxA := by omega
      have h2 : a + 1 + k < maxA := by omega
      have hstep := failCycle_retry_step maxA w err a e h1
      have hiter : failCycles maxA w err 7 1 (k + 1) [pendingRowK a e]
          = failCycles maxA w err 7 1 k
              (failCycle maxA w err 7 1 [pendingRowK a e]) := by
        unfold failCycles
        exact Function.iterate_succ_apply _ k _
      rw [hiter, hstep, ih (a + 1) (some err) h2]
      have harg : a + 1 + k = a + (k + 1) := by omega
      rw [harg]
      have herr : errAfter k err (some err) = errAfter (k + 1) err e := by
        unfold errAfter
        cases k <;> simp
      rw [herr]

/-- C6: starting from a fresh pending row, each failing cycle below
max_attempts leaves the row pending with attempts equal to the number of
failures, after exactly max_attempts consecutive failing cycles the row is
deadletter, and a deadletter row is never selected by claim_batch. -/
theorem c6_deadletter_after_max_attempts (maxA : Nat) (w err : String)
    (e : Option String) (hpos : 0 < maxA) :
    (∀ k, k < maxA → failCycles maxA w err 7 1 k [pendingRowK 0 e]
        = [pendingRowK k (errAfter k err e)]) ∧
    failCycles maxA w err 7 1 maxA [pendingRowK 0 e] = [deadRowK maxA w err] ∧
    (∀ (s : Outbox) (n : Nat) (r : OutboxRow), NodupIds s → r ∈ s →
        r.status = Status.deadletter → r.id ∉ claimedIds n s) := by
  refine ⟨?_, ?_, ?_⟩
  · intro k hk
    have hres := failCycles_pending maxA w err k 0 e (by omega)
    simpa using hres
  · cases maxA with
    | zero => exact absurd hpos (lt_irrefl 0)
    | succ m =>
        have hiter : failCycles (m + 1) w err 7 1 (m + 1) [pendingRowK 0 e]
            = failCycle (m + 1) w err 7 1
                (failCycles (m + 1) w err 7 1 m [pendingRowK 0 e]) := by
          unfold failCycles
          exact Function.iterate_succ_apply' _ m _
        have hm := failCycles_pending (m + 1) w err m 0 e (by omega)
        rw [hiter]
        rw [show (0 + m : Nat) = m from by omega] at hm
        rw [hm]
        exact failCycle_dead_step (m + 1) w err m (errAfter m err e) (by omega)
  · intro s n r hnd hr hst hmem
    have hpend := claimed_row_pending hnd hr hmem
    rw [hst] at hpend
    cases hpend

/-- Witness for C6 at max_attempts two: one failure leaves pending with one
attempt, two failures dead-letter, and the resulting deadletter row is never
claimed again. -/
theorem c6_deadletter_after_max_attempts_witness :
    0 < 2 ∧ 1 < 2 ∧
    failCycles 2 "w1" "boom" 7 1 1 [pendingRowK 0 none]
      = [pendingRowK 1 (errAfter 1 "boom" none)] ∧
    failCycles 2 "w1" "boom" 7 1 2 [pendingRowK 0 none]
      = [deadRowK 2 "w1" "boom"] ∧
    (NodupIds [deadRowK 2 "w1" "boom"] ∧
     deadRowK 2 "w1" "boom" ∈ [deadRowK 2 "w1" "boom"] ∧
     (deadRowK 2 "w1" "boom").status = Status.deadletter ∧
     (deadRowK 2 "w1" "boom").id ∉ claimedIds 1 [deadRowK 2 "w1" "boom"]) :=
  ⟨by decide, by decide,
   (c6_deadletter_after_max_attempts 2 "w1" "boom" none (by decide)).1 1 (by decide),
   (c6_deadletter_after_max_attempts 2 "w1" "boom" none (by decide)).2.1,
   by decide, by decide, by decide,
   (c6_deadletter_after_max_attempts 2 "w1" "boom" none (by decide)).2.2
     [deadRowK 2 "w1" "boom"] 1 (deadRowK 2 "w1" "boom")
     (by decide) (by decide) (by decide)⟩

lemma claimSelect_sorted (n : Nat) (s : Outbox) :
    List.Sorted createdLe (claimSelect n s) := by
  unfold claimSelect
  exact List.Pairwise.sublist (List.take_sublist n _)
    (List.sorted_insertionSort createdLe (pendingRows s))

/-- A row still pending after mark_done was already pending before. -/
lemma pendingRows_mark_done_subset (id : String) (now : Nat) (t : Outbox)
    {r2 : OutboxRow} (h : r2 ∈ pendingRows (mark_done id now t)) :
    r2 ∈ pendingRows t := by
  unfold pendingRows at h ⊢
  rcases List.mem_filter.mp h with ⟨hmem, hst⟩
  unfold mark_done at hmem
  rcases List.mem_map.mp hmem with ⟨r, hr, hrr⟩
  by_cases hid : r.id = id
  · rw [if_pos hid] at hrr
    unfold markDoneRow at hrr
    by_cases hpr : r.status = Status.processing
    · rw [if_pos hpr] at hrr
      rw [← hrr] at hst
      exact absurd hst (by simp)
    · rw [if_neg hpr] at hrr
      subst hrr
      exact List.mem_filter.mpr ⟨hr, hst⟩
  · rw [if_neg hid] at hrr
    subst hrr
    exact List.mem_filter.mpr ⟨hr, hst⟩

lemma pendingRows_foldl_mark_done_subset (batch : List OutboxRow) (now : Nat) :
    ∀ (t : Outbox) {r2 : OutboxRow},
      r2 ∈ pendingRows (batch.foldl (fun acc r => mark_done r.id now acc) t) →
      r2 ∈ pendingRows t := by
  induction batch with
  | nil => intro t r2 h; exact h
  | cons b batch ih =>
      intro t r2 h
      exact pendingRows_mark_done_subset b.id now t (ih (mark_done b.id now t) h)

/-- A row still pending after claim_batch was pending before and unclaimed. -/
lemma pendingRows_claim_snd {n : Nat} {w : String} {now : Nat} {s : Outbox}
    {r2 : OutboxRow} (h : r2 ∈ pendingRows (claim_batch n w now s).2) :
    r2 ∈ pendingRows s ∧ r2.id ∉ claimedIds n s := by
  unfold pendingRows at h
  rcases List.mem_filter.mp h with ⟨hmem, hst⟩
  rw [claim_batch_snd] at hmem
  rcases List.mem_map.mp hmem with ⟨r, hr, hrr⟩
  by_cases hid : r.id ∈ claimedIds n s
  · rw [if_pos hid] at hrr
    rw [← hrr] at hst
    exact absurd hst (by simp)
  · rw [if_neg hid] at hrr
    subst hrr
    exact ⟨List.mem_filter.mpr ⟨hr, hst⟩, hid⟩

/-- A row still pending after a whole drain cycle was pending at its start
and was not claimed by it. -/
lemma pendingRows_drainCycle_table {n : Nat} {w : String} {now : Nat}
    {g : GraphStore} {s : Outbox} {r2 : OutboxRow}
    (h : r2 ∈ pendingRows (drainCycle n w now g s).table) :
    r2 ∈ pendingRows s ∧ r2.id ∉ claimedIds n s :=
  pendingRows_claim_snd
    (pendingRows_foldl_mark_done_subset (claim_batch n w now s).1 now
      (claim_batch n w now s).2 h)

/-- Every row a cycle applies is older (by created_at) than every row the
cycle leaves pending. -/
lemma drainCycle_log_le_pending {n : Nat} {w : String} {now : Nat}
    {g : GraphStore} {s : Outbox} {c p : OutboxRow}
    (hc : c ∈ (drainCycle n w now g s).log)
    (hp : p ∈ pendingRows (drainCycle n w now g s).table) :
    c.created_at ≤ p.created_at := by
  rcases pendingRows_drainCycle_table hp with ⟨hps, hpnc⟩
  rcases List.mem_filter.mp hps with ⟨hpmem, hpst⟩
  exact claim_oldest_first hc hpmem (by simpa using hpst) hpnc

/-- Every row in the concatenated application log was pending in the
starting table. -/
lemma drainCycles_log_pending (n : Nat) (w : String) (now : Nat) :
    ∀ (k : Nat) (g : GraphStore) (s : Outbox) {r : OutboxRow},
      r ∈ (drainCycles n w now k g s).1 → r ∈ pendingRows s := by
  intro k
  induction k with
  | zero => intro g s r h; exact absurd h (List.not_mem_nil r)
  | succ k ih =>
      intro g s r h
      rcases List.mem_append.mp h with h1 | h2
      · rcases claimSelect_mem_pending h1 with ⟨hmem, hst⟩
        exact List.mem_filter.mpr ⟨hmem, by simpa using hst⟩
      · exact (pendingRows_drainCycle_table
          (ih (drainCycle n w now g s).store (drainCycle n w now g s).table h2)).1

/-- The concatenated application log of any number of cycles is globally
ascending in created_at. -/
lemma drainCycles_log_sorted (n : Nat) (w : String) (now : Nat) :
    ∀ (k : Nat) (g : GraphStore) (s : Outbox),
      List.Sorted createdLe (drainCycles n w now k g s).1 := by
  intro k
  induction k with
  | zero => intro g s; exact List.sorted_nil
  | succ k ih =>
      intro g s
      show List.Sorted createdLe
        ((drainCycle n w now g s).log ++
          (drainCycles n w now k (drainCycle n w now g s).store
             (drainCycle n w now g s).table).1)
      refine List.pairwise_append.mpr ⟨claimSelect_sorted n s, ih _ _, ?_⟩
      intro c hc p hp
      exact drainCycle_log_le_pending hc
        (drainCycles_log_pending n w now k _ _ hp)

/-- C5: across any number of successive poll cycles over a fixed workload,
the worker's concatenated application order is ascending created_at, so for
every fixed entity_id every pair of that entity's applied rows — also a
pair falling in two different cycles — is applied in ascending created_at
order; each cycle applies its batch strictly sequentially in claim order
(a single fold, no parallelism).  Rows of different entities share only
this one sequence, nothing more. -/
theorem c5_same_entity_order_cross_cycles (n : Nat) (w : String) (now : Nat)
    (g : GraphStore) (s : Outbox) (k : Nat) (e : String) :
    (drainCycle n w now g s).log = (claim_batch n w now s).1 ∧
    List.Sorted createdLe (drainCycles n w now k g s).1 ∧
    List.Sorted createdLe
      (((drainCycles n w now k g s).1).filter (fun r => r.entity_id = e)) :=
  ⟨rfl, drainCycles_log_sorted n w now k g s,
   List.Pairwise.filter _ (drainCycles_log_sorted n w now k g s)⟩

lemma setProps_append (l1 l2 : List (String × String)) (p : GraphProps) :
    setProps (l1 ++ l2) p = setProps l2 (setProps l1 p) := by
  unfold setProps
  rw [List.foldl_append]

lemma setProps_apply (l : List (String × String)) (p : GraphProps) (x : String) :
    setProps l p x =
      (match l.reverse.find? (fun kv => kv.1 = x) with
       | some kv => some kv.2
       | none => p x) := by
  induction l generalizing p with
  | nil => rfl
  | cons kv l ih =>
      show setProps l (setProp kv.1 kv.2 p) x = _
      rw [ih]
      rw [List.reverse_cons, List.find?_append]
      cases hf : l.reverse.find? (fun kv2 => kv2.1 = x) with
      | some kv2 => simp
      | none =>
          simp only [Option.none_or]
          unfold setProp
          by_cases h : kv.1 = x
          · have hx : x = kv.1 := h.symm
            rw [if_pos hx]
            rw [List.find?_cons_of_pos _ (by simpa using h)]
          · have hx : ¬ x = kv.1 := fun hh => h hh.symm
            rw [if_neg hx]
            rw [List.find?_cons_of_neg _ (by simpa using h)]
            rfl

lemma setProps_idem (l : List (String × String)) (p : GraphProps) :
    setProps l (setProps l p) = setProps l p := by
  funext x
  rw [setProps_apply l (setProps l p) x]
  cases hf : l.reverse.find? (fun kv => kv.1 = x) with
  | some kv =>
      rw [setProps_apply l p x, hf]
  | none =>
      rw [setProps_apply l p x, hf]

lemma nodeWrites_nil_of_not_touched (ms : List Mutation) (k : String)
    (h : nodeTouched ms k = false) : nodeWrites ms k = [] := by
  induction ms with
  | nil => rfl
  | cons m ms ih =>
      cases m with
      | nodeUpsert k2 ps =>
          simp only [nodeTouched, Bool.or_eq_false_iff] at h
          simp only [nodeWrites]
          rw [if_neg (by simpa using h.1), ih h.2]
          rfl
      | propMerge k2 ps =>
          simp only [nodeTouched, Bool.or_eq_false_iff] at h
          simp only [nodeWrites]
          rw [if_neg (by simpa using h.1), ih h.2]
          rfl
      | relUpsert a b t =>
          simp only [nodeTouched] at h
          simp only [nodeWrites]
          exact ih h

lemma applyMutation_nodeUpsert_nodes (g : GraphStore) (k2 : String)
    (ps : List (String × String)) (k : String) :
    (applyMutation g (Mutation.nodeUpsert k2 ps)).nodes k =
      if k = k2 then some (setProps ps ((g.nodes k2).getD emptyProps))
      else g.nodes k := rfl

lemma applyMutations_nodes (ms : List Mutation) (g : GraphStore) (k : String) :
    (applyMutations ms g).nodes k =
      if nodeTouched ms k then
        some (setProps (nodeWrites ms k) ((g.nodes k).getD emptyProps))
      else g.nodes k := by
  induction ms generalizing g with
  | nil => rfl
  | cons m ms ih =>
      have hstep : applyMutations (m :: ms) g = applyMutations ms (applyMutation g m) := rfl
      rw [hstep, ih]
      cases m with
      | nodeUpsert k2 ps =>
          by_cases hk : k2 = k
          · have hTmp : nodeTouched (Mutation.nodeUpsert k2 ps :: ms) k = true := by
              simp [nodeTouched, hk]
            rw [hTmp]
            have hW : nodeWrites (Mutation.nodeUpsert k2 ps :: ms) k
                = ps ++ nodeWrites ms k := by
              simp [nodeWrites, hk]
            rw [hW]
            have hnode : (applyMutation g (Mutation.nodeUpsert k2 ps)).nodes k
                = some (setProps ps ((g.nodes k).getD emptyProps)) := by
              rw [applyMutation_nodeUpsert_nodes, if_pos hk.symm, hk]
            by_cases ht : nodeTouched ms k
            · rw [if_pos ht, hnode]
              simp only [Option.getD_some, if_true]
              rw [setProps_append]
            · rw [if_neg ht, hnode]
              rw [nodeWrites_nil_of_not_touched ms k (by simpa using ht)]
              rw [List.append_nil]
              simp
          · have hTmp : nodeTouched (Mutation.nodeUpsert k2 ps :: ms) k
                = nodeTouched ms k := by
              simp [nodeTouched, hk]
            have hW : nodeWrites (Mutation.nodeUpsert k2 ps :: ms) k
                = nodeWrites ms k := by
              simp [nodeWrites, hk]
            have hnode : (applyMutation g (Mutation.nodeUpsert k2 ps)).nodes k
                = g.nodes k := by
              rw [applyMutation_nodeUpsert_nodes,
                  if_neg (fun hh => hk hh.symm)]
            rw [hTmp, hW, hnode]
      | propMerge k2 ps =>
          by_cases hk : k2 = k
          · have hTmp : nodeTouched (Mutation.propMerge k2 ps :: ms) k = true := by
              simp [nodeTouched, hk]
            rw [hTmp]
            have hW : nodeWrites (Mutation.propMerge k2 ps :: ms) k
                = ps ++ nodeWrites ms k := by
              simp [nodeWrites, hk]
            rw [hW]
            have hnode : (applyMutation g (Mutation.propMerge k2 ps)).nodes k
                = some (setProps ps ((g.nodes k).getD emptyProps)) := by
              show (if k = k2 then some (setProps ps ((g.nodes k2).getD emptyProps))
                    else g.nodes k) = _
              rw [if_pos hk.symm, hk]
            by_cases ht : nodeTouched ms k
            · rw [if_pos ht, hnode]
              simp only [Option.getD_some, if_true]
              rw [setProps_append]
            · rw [if_neg ht, hnode]
              rw [nodeWrites_nil_of_not_touched ms k (by simpa using ht)]
              rw [List.append_nil]
              simp
          · have hTmp : nodeTouched (Mutation.propMerge k2 ps :: ms) k
                = nodeTouched ms k := by
              simp [nodeTouched, hk]
            have hW : nodeWrites (Mutation.propMerge k2 ps :: ms) k
                = nodeWrites ms k := by
              simp [nodeWrites, hk]
            have hnode : (applyMutation g (Mutation.propMerge k2 ps)).nodes k
                = g.nodes k := by
              show (if k = k2 then some (setProps ps ((g.nodes k2).getD emptyProps))
                    else g.nodes k) = _
              rw [if_neg (fun hh => hk hh.symm)]
            rw [hTmp, hW, hnode]
      | relUpsert a b t =>
          have hnode : (applyMutation g (Mutation.relUpsert a b t)).nodes k
              = g.nodes k := rfl
          have hTmp : nodeTouched (Mutation.relUpsert a b t :: ms) k
              = nodeTouched ms k := rfl
          have hW : nodeWrites (Mutation.relUpsert a b t :: ms) k
              = nodeWrites ms k := rfl
          rw [hTmp, hW, hnode]

lemma applyMutations_rels (ms : List Mutation) (g : GraphStore)
    (x y z : String) :
    (applyMutations ms g).rels x y z
      = (relTouched ms x y z || g.rels x y z) := by
  induction ms generalizing g with
  | nil => rfl
  | cons m ms ih =>
      have hstep : applyMutations (m :: ms) g = applyMutations ms (applyMutation g m) := rfl
      rw [hstep, ih]
      cases m with
      | relUpsert a b t =>
          have hrel : (applyMutation g (Mutation.relUpsert a b t)).rels x y z
              = if x = a ∧ y = b ∧ z = t then true else g.rels x y z := rfl
          rw [hrel]
          by_cases h : x = a ∧ y = b ∧ z = t
          · rw [if_pos h]
            have : relTouched (Mutation.relUpsert a b t :: ms) x y z = true := by
              simp [relTouched, h.1.symm, h.2.1.symm, h.2.2.symm]
            rw [this]
            simp
          · rw [if_neg h]
            have : relTouched (Mutation.relUpsert a b t :: ms) x y z
                = relTouched ms x y z := by
              simp only [relTouched]
              have : ¬ (a = x ∧ b = y ∧ t = z) := by
                intro hh
                exact h ⟨hh.1.symm, hh.2.1.symm, hh.2.2.symm⟩
              rcases Decidable.not_and_iff_or_not.mp this with h1 | h23
              · simp [h1]
              · rcases Decidable.not_and_iff_or_not.mp h23 with h2 | h3
                · simp [h2]
                · simp [h3]
            rw [this]
      | nodeUpsert k2 ps =>
          have hrel : (applyMutation g (Mutation.nodeUpsert k2 ps)).rels x y z
              = g.rels x y z := rfl
          rw [hrel]
          rfl
      | propMerge k2 ps =>
          have hrel : (applyMutation g (Mutation.propMerge k2 ps)).rels x y z
              = g.rels x y z := rfl
          rw [hrel]
          rfl

lemma applyMutations_idem (ms : List Mutation) (g : GraphStore) :
    applyMutations ms (applyMutations ms g) = applyMutations ms g := by
  have hnodes : ∀ k, (applyMutations ms (applyMutations ms g)).nodes k
      = (applyMutations ms g).nodes k := by
    intro k
    rw [applyMutations_nodes ms (applyMutations ms g) k]
    by_cases ht : nodeTouched ms k
    · rw [if_pos ht, applyMutations_nodes ms g k, if_pos ht]
      simp only [Option.getD_some]
      rw [setProps_idem]
    · rw [if_neg ht]
  have hrels : ∀ x y z, (applyMutations ms (applyMutations ms g)).rels x y z
      = (applyMutations ms g).rels x y z := by
    intro x y z
    rw [applyMutations_rels ms (applyMutations ms g) x y z,
        applyMutations_rels ms g x y z]
    cases relTouched ms x y z <;> simp
  exact GraphStore.ext (funext hnodes)
    (funext fun x => funext fun y => funext fun z => hrels x y z)

/-- C4: applying an event's mutation set to the secondary store twice
yields the same final secondary-store state as applying it once; more
generally every mutation list the mapper can return is idempotent under
the create-or-merge upsert semantics. -/
theorem c4_apply_mutations_idempotent (et : String) (p : Payload)
    (g : GraphStore) :
    applyMutations ((mapPayload et p).getD [])
        (applyMutations ((mapPayload et p).getD []) g)
      = applyMutations ((mapPayload et p).getD []) g ∧
    ∀ ms : List Mutation,
      applyMutations ms (applyMutations ms g) = applyMutations ms g :=
  ⟨applyMutations_idem _ g, fun ms => applyMutations_idem ms g⟩

/-- Field lookup ignores appended fields whose names differ. -/
lemma getField_append_of_not_mem (p q : Payload) (f : String)
    (hq : ∀ kv ∈ q, ¬ kv.1 = f) :
    getField (p ++ q) f = getField p f := by
  unfold getField
  rw [List.find?_append]
  have hnone : q.find? (fun kv => kv.1 = f) = none :=
    List.find?_eq_none.mpr (fun kv hkv => by simpa using hq kv hkv)
  rw [hnone]
  cases p.find? (fun kv => kv.1 = f) <;> rfl

/-- C8: the Payload Mapper is the pure function of the dispatch table (so
deterministic and free of any store access by construction), and on every
event_type the table knows, extending a payload with fields unknown to that
event_type's schema changes nothing: the mapper still succeeds and returns
the same mutation list. -/
theorem c8_mapper_ignores_unknown_fields (et : String) (p q : Payload)
    (het : ∃ kv ∈ mapperTable, kv.1 = et)
    (hq : ∀ kv ∈ q, kv.1 ∉ knownFields et) :
    mapPayload et (p ++ q) = mapPayload et p ∧
    (mapPayload et (p ++ q)).isSome = true := by
  have hfield : ∀ f : String, f ∈ knownFields et →
      getField (p ++ q) f = getField p f := by
    intro f hf
    refine getField_append_of_not_mem p q f ?_
    intro kv hkv hh
    exact hq kv hkv (by rw [hh]; exact hf)
  rcases het with ⟨kv, hkv, hkve⟩
  simp only [mapperTable, List.mem_cons, List.not_mem_nil, or_false] at hkv
  rcases hkv with h | h | h
  all_goals rw [h] at hkve
  · have hket : et = "conversation_upsert" := by rw [← hkve]
    subst hket
    have h1 := hfield "id" (by decide)
    have h2 := hfield "topic" (by decide)
    have h3 := hfield "sub_topic" (by decide)
    have heval : ∀ x : Payload, mapPayload "conversation_upsert" x
        = some (mapConversationUpsert x) := fun x => rfl
    rw [heval, heval]
    refine ⟨?_, rfl⟩
    unfold mapConversationUpsert
    rw [h1, h2, h3]
  · have hket : et = "message_upsert" := by rw [← hkve]
    subst hket
    have h1 := hfield "id" (by decide)
    have h2 := hfield "content" (by decide)
    have h3 := hfield "message_type" (by decide)
    have h4 := hfield "conversation_id" (by decide)
    have heval : ∀ x : Payload, mapPayload "message_upsert" x
        = some (mapMessageUpsert x) := fun x => rfl
    rw [heval, heval]
    refine ⟨?_, rfl⟩
    unfold mapMessageUpsert
    rw [h1, h2, h3, h4]
  · have hket : et = "feedback_upsert" := by rw [← hkve]
    subst hket
    have h1 := hfield "message_id" (by decide)
    have h2 := hfield "quality_score" (by decide)
    have heval : ∀ x : Payload, mapPayload "feedback_upsert" x
        = some (mapFeedbackUpsert x) := fun x => rfl
    rw [heval, heval]
    refine ⟨?_, rfl⟩
    unfold mapFeedbackUpsert
    rw [h1, h2]

/-- Witness for C8: a message_upsert payload extended with a junk field maps
to the same mutations. -/
theorem c8_mapper_ignores_unknown_fields_witness :
    (∃ kv ∈ mapperTable, kv.1 = "message_upsert") ∧
    (∀ kv ∈ [(("junk" : String), ("z" : String))],
        kv.1 ∉ knownFields "message_upsert") ∧
    (mapPayload "message_upsert"
        ([("id", "m1"), ("content", "hi"), ("message_type", "user"),
          ("conversation_id", "c1")] ++ [("junk", "z")])
      = mapPayload "message_upsert"
          [("id", "m1"), ("content", "hi"), ("message_type", "user"),
           ("conversation_id", "c1")] ∧
     (mapPayload "message_upsert"
        ([("id", "m1"), ("content", "hi"), ("message_type", "user"),
          ("conversation_id", "c1")] ++ [("junk", "z")])).isSome = true) :=
  ⟨⟨("message_upsert", mapMessageUpsert), by simp [mapperTable], rfl⟩,
   by decide,
   c8_mapper_ignores_unknown_fields "message_upsert"
     [("id", "m1"), ("content", "hi"), ("message_type", "user"),
      ("conversation_id", "c1")] [("junk", "z")]
     ⟨("message_upsert", mapMessageUpsert), by simp [mapperTable], rfl⟩
     (by decide)⟩

/-- C9: an INSERT into graph_outbox supplying only id, event_type,
entity_id and payload yields a row with status pending, attempts 0,
last_error NULL and both timestamps set to the insertion time; NULL in any
of the four NOT NULL columns is rejected, and a duplicate id violates the
PRIMARY KEY. -/
theorem c9_graph_outbox_insert_defaults (i et en pl : String) (now : Nat)
    (t : List GraphOutboxSQLRow) (hfresh : ∀ r ∈ t, ¬ r.id = i) :
    insertGraphOutbox (some i) (some et) (some en) (some pl) now t
      = Except.ok (t ++ [⟨i, et, en, pl, "pending", 0, none, some now, some now⟩]) ∧
    (∀ r ∈ t, insertGraphOutbox (some r.id) (some et) (some en) (some pl) now t
      = Except.error "duplicate key value violates unique constraint graph_outbox_pkey") ∧
    insertGraphOutbox none (some et) (some en) (some pl) now t
      = Except.error "null value in column violates not-null constraint" ∧
    insertGraphOutbox (some i) none (some en) (some pl) now t
      = Except.error "null value in column violates not-null constraint" ∧
    insertGraphOutbox (some i) (some et) none (some pl) now t
      = Except.error "null value in column violates not-null constraint" ∧
    insertGraphOutbox (some i) (some et) (some en) none now t
      = Except.error "null value in column violates not-null constraint" := by
  refine ⟨?_, ?_, rfl, rfl, rfl, rfl⟩
  · have hany : t.any (fun r => r.id = i) = false := by
      rw [List.any_eq_false]
      intro r hr
      simpa using hfresh r hr
    simp only [insertGraphOutbox]
    rw [if_neg (by simp [hany])]
  · intro r hr
    have hany : t.any (fun r2 => r2.id = r.id) = true :=
      List.any_eq_true.mpr ⟨r, hr, by simp⟩
    simp only [insertGraphOutbox]
    rw [if_pos (by simp [hany])]

/-- Witness for C9: inserting event d into a one-row table applies the DDL
defaults; re-inserting the existing id fails. -/
theorem c9_graph_outbox_insert_defaults_witness :
    (∀ r ∈ [(⟨"a", "message_upsert", "e1", "{}", "pending", 0, none, some 5,
        some 5⟩ : GraphOutboxSQLRow)], ¬ r.id = "d") ∧
    (insertGraphOutbox (some "d") (some "message_upsert") (some "e1")
        (some "{}") 9
        [⟨"a", "message_upsert", "e1", "{}", "pending", 0, none, some 5, some 5⟩]
      = Except.ok
          [⟨"a", "message_upsert", "e1", "{}", "pending", 0, none, some 5, some 5⟩,
           ⟨"d", "message_upsert", "e1", "{}", "pending", 0, none, some 9, some 9⟩] ∧
     insertGraphOutbox (some "a") (some "message_upsert") (some "e1")
        (some "{}") 9
        [⟨"a", "message_upsert", "e1", "{}", "pending", 0, none, some 5, some 5⟩]
      = Except.error "duplicate key value violates unique constraint graph_outbox_pkey" ∧
     insertGraphOutbox none (some "message_upsert") (some "e1") (some "{}") 9
        [⟨"a", "message_upsert", "e1", "{}", "pending", 0, none, some 5, some 5⟩]
      = Except.error "null value in column violates not-null constraint") := by
  have hth := c9_graph_outbox_insert_defaults "d" "message_upsert" "e1" "{}" 9
    [⟨"a", "message_upsert", "e1", "{}", "pending", 0, none, some 5, some 5⟩]
    (by decide)
  exact ⟨by decide, hth.1,
    hth.2.1 ⟨"a", "message_upsert", "e1", "{}", "pending", 0, none, some 5, some 5⟩
      (by decide),
    hth.2.2.1⟩

/-- C10: within one conversation a second row with the same non-NULL
idempotency_key is rejected by the partial unique index (the table is left
unchanged: the insert returns an error, never a second row), rows with a
NULL idempotency_key are never blocked by that index, and a successful
insert preserves the no-duplicate invariant. -/
theorem c10_messages_partial_unique (i conv mtype content : String)
    (k : String) (now : Nat) (t : List MessageRow) :
    ((∃ r ∈ t, r.conversation_id = conv ∧ r.idempotency_key = some k) →
       ∀ t2, insertMessage i conv mtype content (some k) now t ≠ Except.ok t2) ∧
    idemConflict conv none t = false ∧
    ((∀ r ∈ t, ¬ r.id = i) →
       (mtype = "user" ∨ mtype = "assistant" ∨ mtype = "system") →
       insertMessage i conv mtype content none now t
         = Except.ok (t ++ [⟨i, conv, mtype, content, none, now, now, true⟩])) ∧
    (UniqueIdem t → ∀ (key : Option String) (t2 : List MessageRow),
       insertMessage i conv mtype content key now t = Except.ok t2 →
       UniqueIdem t2) := by
  refine ⟨?_, rfl, ?_, ?_⟩
  · rintro ⟨r, hr, hrc, hrk⟩ t2 hok
    have hconf : idemConflict conv (some k) t = true := by
      unfold idemConflict
      exact List.any_eq_true.mpr ⟨r, hr, by simp [hrc, hrk]⟩
    unfold insertMessage at hok
    by_cases h1 : (t.any fun r => decide (r.id = i)) = true
    · rw [if_pos h1] at hok
      exact Except.noConfusion hok
    · rw [if_neg h1] at hok
      by_cases h2 : ¬ (mtype = "user" ∨ mtype = "assistant" ∨ mtype = "system")
      · rw [if_pos h2] at hok
        exact Except.noConfusion hok
      · rw [if_neg h2] at hok
        rw [if_pos hconf] at hok
        exact Except.noConfusion hok
  · intro hfresh hvalid
    have hany : t.any (fun r => r.id = i) = false := by
      rw [List.any_eq_false]
      intro r hr
      simpa using hfresh r hr
    unfold insertMessage
    rw [if_neg (by simp [hany]), if_neg (not_not_intro hvalid)]
    have hconf : idemConflict conv none t = false := rfl
    rw [if_neg (by simp [hconf])]
  · intro hu key t2 hok
    unfold insertMessage at hok
    by_cases h1 : (t.any fun r => decide (r.id = i)) = true
    · rw [if_pos h1] at hok
      exact Except.noConfusion hok
    · rw [if_neg h1] at hok
      by_cases h2 : ¬ (mtype = "user" ∨ mtype = "assistant" ∨ mtype = "system")
      · rw [if_pos h2] at hok
        exact Except.noConfusion hok
      · rw [if_neg h2] at hok
        by_cases h3 : idemConflict conv key t = true
        · rw [if_pos h3] at hok
          exact Except.noConfusion hok
        · rw [if_neg h3] at hok
          injection hok with hok2
          rw [← hok2]
          unfold UniqueIdem
          rw [List.pairwise_append]
          refine ⟨hu, List.pairwise_singleton _ _, ?_⟩
          intro r1 hr1 r2 hr2 hconv
          rw [List.mem_singleton.mp hr2]
          rw [List.mem_singleton.mp hr2] at hconv
          by_cases hk1 : r1.idempotency_key = none
          · exact Or.inl hk1
          · refine Or.inr ?_
            intro heq
            cases hkey : key with
            | none =>
                rw [hkey] at heq
                exact hk1 (by simpa using heq)
            | some k2 =>
                refine h3 ?_
                rw [hkey]
                unfold idemConflict
                refine List.any_eq_true.mpr ⟨r1, hr1, ?_⟩
                simp only [decide_eq_true_eq]
                refine ⟨by simpa using hconv, ?_⟩
                have heq2 : r1.idempotency_key = key := by simpa using heq
                rw [heq2, hkey]

/-- Witness for C10 on a one-row table: duplicating the non-NULL key fails,
a NULL-key insert succeeds, and the invariant is preserved. -/
theorem c10_messages_partial_unique_witness :
    (∃ r ∈ [(⟨"m1", "c1", "user", "hi", some "k1", 5, 5, true⟩ : MessageRow)],
        r.conversation_id = "c1" ∧ r.idempotency_key = some "k1") ∧
    (∀ t2, insertMessage "m2" "c1" "user" "again" (some "k1") 6
        [⟨"m1", "c1", "user", "hi", some "k1", 5, 5, true⟩] ≠ Except.ok t2) ∧
    idemConflict "c1" none [(⟨"m1", "c1", "user", "hi", some "k1", 5, 5, true⟩ : MessageRow)] = false ∧
    insertMessage "m2" "c1" "user" "again" none 6
        [⟨"m1", "c1", "user", "hi", some "k1", 5, 5, true⟩]
      = Except.ok [⟨"m1", "c1", "user", "hi", some "k1", 5, 5, true⟩,
                   ⟨"m2", "c1", "user", "again", none, 6, 6, true⟩] := by
  have hth := c10_messages_partial_unique "m2" "c1" "user" "again" "k1" 6
    [⟨"m1", "c1", "user", "hi", some "k1", 5, 5, true⟩]
  exact ⟨⟨⟨"m1", "c1", "user", "hi", some "k1", 5, 5, true⟩, by decide, by decide⟩,
    hth.1 ⟨⟨"m1", "c1", "user", "hi", some "k1", 5, 5, true⟩, by decide, by decide⟩,
    hth.2.1,
    hth.2.2.1 (by decide) (by decide)⟩

end NeuroOutbox
